import Mathlib

/-!
Verification of the binary-adder RNN notebook.

This file gives a shallow embedding of the notebook's data and control
logic and proves / refutes the specification claims about it.

Conventions of the embedding:
* numpy unsigned-integer arrays are `List Nat`, with the stored values
  (which are `< 2 ^ width`) as the list entries;
* the numpy dtype strings `"uint8"`, `"uint16"`, `"uint32"` are kept as
  `String`, exactly as the notebook passes them around;
* fallible numpy operations (reshape with an incompatible size, dtype
  dispatch falling through every branch) are `Option`-valued, with
  `none` marking the exception the Python code would raise;
* float32 values flowing through the trained network are embedded as
  real numbers; every concrete float32 is a (dyadic) rational, so the
  rational / real embedding is exact for comparisons and rounding;
* `np.random.choice(n, size)` draws uniformly from `range(n)`; it is
  modelled by reducing an arbitrary external draw modulo `n`, which has
  exactly the support `{0, ..., n - 1}`.
-/

/-! ## Configuration constants (first code cell) -/

/-- Notebook constant `max_uint32 = 2 ** 32 - 1`. -/
def max_uint32 : Nat := 2 ^ 32 - 1

/-- Notebook constant `max_uint16 = 2 ** 16 - 1`. -/
def max_uint16 : Nat := 2 ^ 16 - 1

/-- Notebook constant `max_uint8 = 2 ** 8 - 1`. -/
def max_uint8 : Nat := 2 ^ 8 - 1

/-- The bitwidth selected by the dtype string, as in `SampleData.__init__`
(the chain of `if dtype == "uint8": self.bitwidth = 8` statements);
`none` when the dtype is not one of the three supported strings, in which
case `SampleData.__init__` raises `ValueError`. -/
def bitwidthOf (dtype : String) : Option Nat :=
  if dtype = "uint8" then some 8
  else if dtype = "uint16" then some 16
  else if dtype = "uint32" then some 32
  else none

/-! ## Bit codec: `arr2inbits` and `bits2arr` -/

/-- The eight bits of the low byte of `b`, most significant first: one
byte's worth of `np.unpackbits` output. -/
def byte2bits (b : Nat) : List Nat :=
  [b / 128 % 2, b / 64 % 2, b / 32 % 2, b / 16 % 2, b / 8 % 2, b / 4 % 2, b / 2 % 2, b % 2]

/-- `np.unpackbits` on a byte array: each byte becomes its eight bits,
most significant bit first. -/
def np_unpackbits (bytes : List Nat) : List Nat :=
  (bytes.map byte2bits).flatten

/-- Big-endian byte view of a single `uint8` value:
`x.astype(x.dtype.newbyteorder("B")).view(np.uint8)` for one element. -/
def bytes_uint8 (v : Nat) : List Nat := [v % 256]

/-- Big-endian byte view of a single `uint16` value. -/
def bytes_uint16 (v : Nat) : List Nat := [v / 256 % 256, v % 256]

/-- Big-endian byte view of a single `uint32` value. -/
def bytes_uint32 (v : Nat) : List Nat :=
  [v / 16777216 % 256, v / 65536 % 256, v / 256 % 256, v % 256]

/-- Big-endian byte view of a whole array (`x_little_end.view(np.uint8)`
in `arr2inbits` after the byteorder swap): the bytes of every element,
element order preserved, each element's bytes most significant first.
`none` when the dtype is unsupported. -/
def np_view_bytes (dtype : String) (x : List Nat) : Option (List Nat) :=
  if dtype = "uint8" then some ((x.map bytes_uint8).flatten)
  else if dtype = "uint16" then some ((x.map bytes_uint16).flatten)
  else if dtype = "uint32" then some ((x.map bytes_uint32).flatten)
  else none

/-- The notebook's `arr2inbits(x)`: view the array as big-endian bytes,
`np.unpackbits` the whole byte array, and flip the resulting bit vector
(`x_bits[::-1]`), so each element ends up least-significant-bit first and
the element order is reversed.  The dtype of the numpy argument is made
explicit here. -/
def arr2inbits (dtype : String) (x : List Nat) : Option (List Nat) :=
  (np_view_bytes dtype x).map (fun bytes => (np_unpackbits bytes).reverse)

/-- One output byte of `np.packbits`: the bits of one group, most
significant first, folded into a byte value. -/
def bits2byte (l : List Nat) : Nat := l.foldl (fun a b => 2 * a + b) 0

/-- `np.packbits`: consume the bit list in groups of eight (most
significant bit of each output byte first); a final group of fewer than
eight bits is padded with zero bits on the right. -/
def packbits : List Nat → List Nat
  | [] => []
  | b0 :: b1 :: b2 :: b3 :: b4 :: b5 :: b6 :: b7 :: rest =>
      bits2byte [b0, b1, b2, b3, b4, b5, b6, b7] :: packbits rest
  | l => [bits2byte l * 2 ^ (8 - l.length)]

/-- Row dot product with the `multiplier` row vector
(`np.add.reduce(multiplier * x_grouped_bytes, axis=1)` for one row). -/
def dotList : List Nat → List Nat → Nat
  | m :: ms, b :: bs => m * b + dotList ms bs
  | _, _ => 0

/-- `np.reshape(x_int, [len / 2, 2])`: group a byte list into pairs;
`none` when the length is not a multiple of two (numpy raises). -/
def np_reshape_pairs : List Nat → Option (List (List Nat))
  | [] => some []
  | b0 :: b1 :: rest => (np_reshape_pairs rest).map (fun g => [b0, b1] :: g)
  | _ => none

/-- `np.reshape(x_int, [len / 4, 4])`: group a byte list into quadruples;
`none` when the length is not a multiple of four (numpy raises). -/
def np_reshape_quads : List Nat → Option (List (List Nat))
  | [] => some []
  | b0 :: b1 :: b2 :: b3 :: rest =>
      (np_reshape_quads rest).map (fun g => [b0, b1, b2, b3] :: g)
  | _ => none

/-- The notebook's `bits2arr(x, dtype)`: flip the bit vector back,
`np.packbits` it, and recombine the bytes of each element with the
big-endian byte weights (`[2 ** 8, 1]` for `uint16`,
`[2 ** 24, 2 ** 16, 2 ** 8, 1]` for `uint32`); a `uint8` array is the
packed bytes themselves.  `none` when the dtype is unsupported (the
Python function would hit an unbound local) or a reshape fails. -/
def bits2arr (x : List Nat) (dtype : String) : Option (List Nat) :=
  let x_int := packbits x.reverse
  if dtype = "uint8" then some x_int
  else if dtype = "uint16" then
    (np_reshape_pairs x_int).map (List.map (dotList [2 ^ 8, 1]))
  else if dtype = "uint32" then
    (np_reshape_quads x_int).map (List.map (dotList [2 ^ 24, 2 ^ 16, 2 ^ 8, 1]))
  else none

/-! ## Specification-side codec: LSB-first binary expansion

These two definitions follow the specification's words ("ordered
sequence of {0,1} of length = width, least-significant bit first" and
"summing weighted bits"); the codec claims compare the notebook's
`arr2inbits` / `bits2arr` against them. -/

/-- LSB-first binary expansion of `v`, `w` bits long. -/
def encodeLSB : Nat → Nat → List Nat
  | 0, _ => []
  | w + 1, v => v % 2 :: encodeLSB w (v / 2)

/-- Value of an LSB-first bit vector. -/
def decodeLSB : List Nat → Nat
  | [] => 0
  | b :: rest => b + 2 * decodeLSB rest

/-! ## Sample generator (`SampleData`) -/

/-- One element drawn by `np.random.choice(n, size, replace=True)`:
uniform on `range(n) = {0, ..., n - 1}`.  The external randomness is an
arbitrary natural `draw`; reducing it modulo `n` realises exactly the
support of the uniform draw (every residue is hit, nothing else is). -/
def np_random_choice (n : Nat) (draw : Nat) : Nat := draw % n

/-- The notebook's `SampleData.gen_x(samples, dtype)`: the two operand
arrays, each element drawn by `np.random.choice(max_uintN, samples,
replace=True).astype(np.uintN)` (the astype is a no-op because every
draw is below `max_uintN < 2 ^ N`).  The lists `draws0`, `draws1` are
the external random draws. -/
def gen_x (dtype : String) (draws0 draws1 : List Nat) :
    Option (List Nat × List Nat) :=
  if dtype = "uint8" then
    some (draws0.map (np_random_choice max_uint8), draws1.map (np_random_choice max_uint8))
  else if dtype = "uint16" then
    some (draws0.map (np_random_choice max_uint16), draws1.map (np_random_choice max_uint16))
  else if dtype = "uint32" then
    some (draws0.map (np_random_choice max_uint32), draws1.map (np_random_choice max_uint32))
  else none

/-- `np.sum(row, axis=1, dtype=np.uintN)` for one row: accumulate in the
fixed-width unsigned dtype, wrapping modulo `2 ^ w` at every addition. -/
def np_sum_uint (w : Nat) (row : List Nat) : Nat :=
  row.foldl (fun acc v => (acc + v) % 2 ^ w) 0

/-- The notebook's `SampleData.calc_y(x0_uint, x1_uint, dtype)`:
`np.hstack` pairs the operand columns row by row, and `np.sum(...,
axis=1, dtype=np.uintN)` adds each pair in the wrapping dtype. -/
def calc_y (x0_uint x1_uint : List Nat) (dtype : String) : Option (List Nat) :=
  (bitwidthOf dtype).map
    (fun w => (x0_uint.zip x1_uint).map (fun p => np_sum_uint w [p.1, p.2]))

/-- Python's `int()` applied to an exact rational: truncation toward
zero (`int(0.5 * 16) == 8`). -/
def pyInt (q : ℚ) : ℤ := Int.tdiv q.num q.den

/-- The Python slice `l[:k]` for an arbitrary integer `k`: a negative
`k` counts from the end (`l[:-1]` is all but the last element). -/
def pySliceTo {α : Type} (k : ℤ) (l : List α) : List α :=
  if k < 0 then l.take ((l.length : ℤ) + k).toNat else l.take k.toNat

/-- The Python slice `l[k:]` for an arbitrary integer `k`. -/
def pySliceFrom {α : Type} (k : ℤ) (l : List α) : List α :=
  if k < 0 then l.drop ((l.length : ℤ) + k).toNat else l.drop k.toNat

/-- The train/validation split of `SampleData.__init__` applied to the
list `x_all` of batches:
`train_batches = int(train_validation_batches_split * batch_count)`,
training slice `x_all[:train_batches - 1]`, validation slice
`x_all[train_batches:]`.  The configured fraction is an exact rational. -/
def sample_split {α : Type} (split : ℚ) (x_all : List α) : List α × List α :=
  let train_batches : ℤ := pyInt (split * (x_all.length : ℚ))
  (pySliceTo (train_batches - 1) x_all, pySliceFrom train_batches x_all)

/-! ## The recurrent model (`RnnCell`)

The float32 tensors of the notebook are embedded as real numbers;
vectors of hidden size `n` are `Fin n → ℝ`, the two-bit input of one
timestep is `Fin 2 → ℝ`.  Only a batch of one is modelled (the claims
quantify over single sequences; the loop treats batch rows
independently). -/

/-- `tf.nn.relu`. -/
noncomputable def relu (x : ℝ) : ℝ := max x 0

/-- `tf.sigmoid`. -/
noncomputable def sigmoid (x : ℝ) : ℝ := 1 / (1 + Real.exp (-x))

/-- Row-vector times matrix, `tf.matmul(row, W)` for one row. -/
noncomputable def matvec {m n : Nat} (W : Fin m → Fin n → ℝ) (x : Fin m → ℝ) :
    Fin n → ℝ :=
  fun j => ∑ i, x i * W i j

/-- One timestep of the manual unroll branch of `RnnCell.__init__`
(`use_tf_rnn_api=False`):
`temp_h_1 = tf.add(tf.matmul(current_input, w_i_h), b_h)` and
`h_1 = tf.nn.relu(tf.add(temp_h_1, tf.matmul(h_0, w_h_h)))`. -/
noncomputable def rnn_step {n : Nat} (w_i_h : Fin 2 → Fin n → ℝ)
    (w_h_h : Fin n → Fin n → ℝ) (b_h : Fin n → ℝ)
    (current_input : Fin 2 → ℝ) (h_0 : Fin n → ℝ) : Fin n → ℝ :=
  fun j => relu (matvec w_i_h current_input j + b_h j + matvec w_h_h h_0 j)

/-- The hidden-state list `self._h` built by the manual unroll loop
`for current_input in self._x_series`: one hidden state per timestep,
each fed back as `h_0` for the next. -/
noncomputable def rnn_unroll {n : Nat} (w_i_h : Fin 2 → Fin n → ℝ)
    (w_h_h : Fin n → Fin n → ℝ) (b_h : Fin n → ℝ) :
    List (Fin 2 → ℝ) → (Fin n → ℝ) → List (Fin n → ℝ)
  | [], _ => []
  | x :: xs, h_0 =>
      rnn_step w_i_h w_h_h b_h x h_0 ::
        rnn_unroll w_i_h w_h_h b_h xs (rnn_step w_i_h w_h_h b_h x h_0)

/-- The per-step output logit
`o_1_logit = tf.add(tf.matmul(h_1, w_h_o), b_o)`. -/
noncomputable def out_logit {n : Nat} (w_h_o : Fin n → Fin 1 → ℝ) (b_o : Fin 1 → ℝ)
    (h : Fin n → ℝ) : ℝ :=
  matvec w_h_o h 0 + b_o 0

/-- `self._logits_series` of the manual branch: the logit of each
timestep's hidden state. -/
noncomputable def logits_series {n : Nat} (w_i_h : Fin 2 → Fin n → ℝ)
    (w_h_h : Fin n → Fin n → ℝ) (b_h : Fin n → ℝ)
    (w_h_o : Fin n → Fin 1 → ℝ) (b_o : Fin 1 → ℝ)
    (xs : List (Fin 2 → ℝ)) (h_0 : Fin n → ℝ) : List ℝ :=
  (rnn_unroll w_i_h w_h_h b_h xs h_0).map (out_logit w_h_o b_o)

/-- `self.predictions_series = [tf.sigmoid(logits) for logits in
self._logits_series]`. -/
noncomputable def predictions_series {n : Nat} (w_i_h : Fin 2 → Fin n → ℝ)
    (w_h_h : Fin n → Fin n → ℝ) (b_h : Fin n → ℝ)
    (w_h_o : Fin n → Fin 1 → ℝ) (b_o : Fin 1 → ℝ)
    (xs : List (Fin 2 → ℝ)) (h_0 : Fin n → ℝ) : List ℝ :=
  (logits_series w_i_h w_h_h b_h w_h_o b_o xs h_0).map sigmoid

/-- Modelled from the spec: the library-provided recurrent primitive of
the `use_tf_rnn_api=True` branch, `tf.contrib.rnn.BasicRNNCell`
(TensorFlow 1.1), which is not part of this repository's sources.  Its
step is `output = new_state = activation(W . [inputs, state] + b)` with
the default `activation=tanh`; the joint kernel of shape
`[2 + num_units, num_units]` is split here into its input block `k_i`
and its recurrent block `k_h`, which is the same linear map on the
concatenated `[inputs, state]` row. -/
noncomputable def basic_rnn_cell_step {n : Nat} (k_i : Fin 2 → Fin n → ℝ)
    (k_h : Fin n → Fin n → ℝ) (b : Fin n → ℝ)
    (inputs : Fin 2 → ℝ) (state : Fin n → ℝ) : Fin n → ℝ :=
  fun j => Real.tanh (matvec k_i inputs j + b j + matvec k_h state j)

/-! ## Interactive calculator (`RNNCalc`) -/

/-- `RNNCalc.__init__`: the inclusive upper input bound `self.max_val`
per dtype. -/
def rnncalc_max_val (dtype : String) : Option Nat :=
  if dtype = "uint8" then some (2 ^ 8 - 1)
  else if dtype = "uint16" then some (2 ^ 16 - 1)
  else if dtype = "uint32" then some (2 ^ 32 - 1)
  else none

/-- `RNNCalc._check_input`: the user's entry is `none` when `int()`
raises (not an integer) and `some v` when it parses as the integer `v`.
Returns the accepted value (or `none`) together with the messages
printed. -/
def _check_input (max_val : ℤ) (x_entry : Option ℤ) : Option ℤ × List String :=
  match x_entry with
  | none => (none, ["Not an integer!"])
  | some v =>
      if v < 0 then (none, ["Input must not be less than 0"])
      else if max_val < v then
        (none, ["Input must not be greater than " ++ toString max_val])
      else (some v, [])

/-- `np.around` on a prediction probability (a sigmoid output, so a
value in the open interval (0,1)): nearest integer, halves to even, so
`1` exactly when the probability exceeds one half. -/
def npRound (q : ℚ) : Nat := if 1 / 2 < q then 1 else 0

/-- `np.reshape(arr, [32])` on a flat list: succeeds exactly when the
list has 32 entries (numpy raises otherwise). -/
def np_reshape_32 {α : Type} (l : List α) : Option (List α) :=
  if l.length = 32 then some l else none

/-- The calculation part of one `RNNCalc.run` round, after both inputs
were accepted: encode both operands, run the session (its emitted
prediction series is the abstract parameter `preds`, one probability
per timestep), round, reshape to `[32]`, decode with `bits2arr`, and
produce the displayed pair — the decoded prediction `bits2arr(...)[0]`
and the displayed "correct answer" `x0 + x1`.  `none` is the uncaught
numpy/Python exception aborting the round. -/
def rnncalc_calc (dtype : String) (preds : List ℚ) (x0 x1 : Nat) :
    Option (Nat × Nat) := do
  let _x0_bits ← arr2inbits dtype [x0]
  let _x1_bits ← arr2inbits dtype [x1]
  let rounded := preds.map npRound
  let predictions_cleaned ← np_reshape_32 rounded
  let decoded ← bits2arr predictions_cleaned dtype
  let y_shown ← decoded.head?
  pure (y_shown, x0 + x1)

/-- Python's substring test `needle in haystack` on strings (character
lists). -/
def strIn (needle : List Char) : List Char → Bool
  | [] => needle.isEmpty
  | c :: rest => needle.isPrefixOf (c :: rest) || strIn needle rest

/-- The continuation string `"Yy"` of the prompt
`if user_input not in "Yy": break`. -/
def yY : List Char := ['Y', 'y']

/-- Everything observable about one iteration of the `while True` loop
in `RNNCalc.run`. -/
structure RoundResult where
  messages : List String
  model_ran : Bool
  display : Option (Nat × Nat)
  crashed : Bool
  continue_loop : Bool

/-- One iteration of `RNNCalc.run`: check both entries (both prompts
always run), and only when both were accepted run the calculation; the
continuation prompt is reached unless the calculation raised, and the
loop continues exactly when the reply is a substring of `"Yy"`. -/
def rnncalc_round (dtype : String) (max_val : ℤ) (preds : List ℚ)
    (entry0 entry1 : Option ℤ) (reply : List Char) : RoundResult :=
  let r0 := _check_input max_val entry0
  let r1 := _check_input max_val entry1
  let msgs := r0.2 ++ r1.2
  match r0.1, r1.1 with
  | some x0, some x1 =>
      match rnncalc_calc dtype preds x0.toNat x1.toNat with
      | some d => ⟨msgs, true, some d, false, strIn reply yY⟩
      | none => ⟨msgs, true, none, true, false⟩
  | _, _ => ⟨msgs, false, none, false, strIn reply yY⟩

/-- An entry the validation of `_check_input` rejects: not an integer,
negative, or above `max_val`. -/
def entry_invalid (max_val : ℤ) (e : Option ℤ) : Prop :=
  e = none ∨ ∃ v, e = some v ∧ (v < 0 ∨ max_val < v)

/-! ## Codec lemmas -/

theorem encodeLSB_add (a b v : Nat) :
    encodeLSB (a + b) v = encodeLSB a v ++ encodeLSB b (v / 2 ^ a) := by
  induction a generalizing v with
  | zero => simp [encodeLSB]
  | succ a ih =>
      have hd : v / 2 / 2 ^ a = v / 2 ^ (a + 1) := by
        rw [Nat.div_div_eq_div_mul, pow_succ, mul_comm]
      rw [show a + 1 + b = (a + b) + 1 from by omega]
      simp only [encodeLSB, ih, List.cons_append, hd]

theorem encodeLSB_mod (w v : Nat) : encodeLSB w (v % 2 ^ w) = encodeLSB w v := by
  induction w generalizing v with
  | zero => simp [encodeLSB]
  | succ w ih =>
      simp only [encodeLSB, List.cons.injEq]
      refine ⟨Nat.mod_mod_of_dvd v ⟨2 ^ w, by rw [pow_succ]; ring⟩, ?_⟩
      rw [show v % 2 ^ (w + 1) / 2 = v / 2 % 2 ^ w from by
            rw [Nat.div_mod_eq_mod_mul_div, pow_succ, mul_comm]]
      exact ih (v / 2)

theorem decodeLSB_lt (b : List Nat) (hb : ∀ x ∈ b, x < 2) :
    decodeLSB b < 2 ^ b.length := by
  induction b with
  | nil => simp [decodeLSB]
  | cons x rest ih =>
      have h1 : x < 2 := hb x (by simp)
      have h2 : decodeLSB rest < 2 ^ rest.length := ih (fun y hy => hb y (by simp [hy]))
      simp only [decodeLSB, List.length_cons, pow_succ]
      omega

theorem encodeLSB_decodeLSB (b : List Nat) (hb : ∀ x ∈ b, x < 2) :
    encodeLSB b.length (decodeLSB b) = b := by
  induction b with
  | nil => simp [encodeLSB]
  | cons x rest ih =>
      have h1 : x < 2 := hb x (by simp)
      simp only [List.length_cons, encodeLSB, decodeLSB, List.cons.injEq]
      refine ⟨by omega, ?_⟩
      rw [show (x + 2 * decodeLSB rest) / 2 = decodeLSB rest from by omega]
      exact ih (fun y hy => hb y (by simp [hy]))

theorem byte2bits_reverse (b : Nat) : (byte2bits b).reverse = encodeLSB 8 b := by
  simp [byte2bits, encodeLSB]
  omega

theorem encodeLSB8_reverse (b : Nat) : (encodeLSB 8 b).reverse = byte2bits b := by
  rw [← byte2bits_reverse, List.reverse_reverse]

theorem encodeLSB_mod256 (u : Nat) : encodeLSB 8 (u % 256) = encodeLSB 8 u := by
  have h := encodeLSB_mod 8 u
  norm_num at h
  exact h

theorem packbits_byte_blocks (us : List Nat) :
    packbits (List.flatten (us.map byte2bits)) = us.map (fun u => u % 256) := by
  induction us with
  | nil => simp [packbits]
  | cons u rest ih =>
      simp only [List.map_cons, List.flatten_cons, byte2bits, List.cons_append,
        List.nil_append, packbits, List.cons.injEq]
      refine ⟨?_, ?_⟩
      · simp [bits2byte]
        omega
      · simpa using ih

theorem dotList_cons (m b : Nat) (ms bs : List Nat) :
    dotList (m :: ms) (b :: bs) = m * b + dotList ms bs := rfl

theorem dotList_nil (bs : List Nat) : dotList [] bs = 0 := rfl

theorem encodeLSB16_bytes (v : Nat) :
    encodeLSB 16 v = encodeLSB 8 v ++ encodeLSB 8 (v / 256) := by
  have h1 := encodeLSB_add 8 8 v
  norm_num at h1
  exact h1

theorem encodeLSB32_bytes (v : Nat) :
    encodeLSB 32 v =
      encodeLSB 8 v ++ (encodeLSB 8 (v / 256) ++
        (encodeLSB 8 (v / 65536) ++ encodeLSB 8 (v / 16777216))) := by
  have h1 := encodeLSB_add 8 24 v
  have h2 := encodeLSB_add 8 16 (v / 256)
  have h3 := encodeLSB_add 8 8 (v / 65536)
  norm_num at h1 h2 h3
  rw [h1, h2]
  rw [show v / 256 / 256 = v / 65536 from by omega] at *
  rw [h3]
  rw [show v / 65536 / 256 = v / 16777216 from by omega]

theorem arr2inbits_uint8 (v : Nat) :
    arr2inbits "uint8" [v] = some (encodeLSB 8 v) := by
  rw [show arr2inbits "uint8" [v] = some ((np_unpackbits (bytes_uint8 v)).reverse) from rfl]
  rw [show np_unpackbits (bytes_uint8 v) = byte2bits (v % 256) from by
        simp [np_unpackbits, bytes_uint8]]
  rw [byte2bits_reverse, encodeLSB_mod256]

theorem arr2inbits_uint16 (v : Nat) :
    arr2inbits "uint16" [v] = some (encodeLSB 16 v) := by
  rw [show arr2inbits "uint16" [v] = some ((np_unpackbits (bytes_uint16 v)).reverse) from rfl]
  rw [show np_unpackbits (bytes_uint16 v) =
        byte2bits (v / 256 % 256) ++ byte2bits (v % 256) from by
        simp [np_unpackbits, bytes_uint16]]
  rw [List.reverse_append, byte2bits_reverse, byte2bits_reverse,
    encodeLSB_mod256, encodeLSB_mod256, encodeLSB16_bytes]

theorem arr2inbits_uint32 (v : Nat) :
    arr2inbits "uint32" [v] = some (encodeLSB 32 v) := by
  rw [show arr2inbits "uint32" [v] = some ((np_unpackbits (bytes_uint32 v)).reverse) from rfl]
  rw [show np_unpackbits (bytes_uint32 v) =
        byte2bits (v / 16777216 % 256) ++
          (byte2bits (v / 65536 % 256) ++
            (byte2bits (v / 256 % 256) ++ byte2bits (v % 256))) from by
        simp [np_unpackbits, bytes_uint32]]
  simp only [List.reverse_append, byte2bits_reverse, encodeLSB_mod256]
  rw [encodeLSB32_bytes]
  simp [List.append_assoc]

theorem bits2arr_encode8 (v : Nat) :
    bits2arr (encodeLSB 8 v) "uint8" = some [v % 2 ^ 8] := by
  rw [show bits2arr (encodeLSB 8 v) "uint8" =
        some (packbits (encodeLSB 8 v).reverse) from rfl]
  rw [encodeLSB8_reverse]
  rw [show byte2bits v = List.flatten ([v].map byte2bits) from by simp]
  rw [packbits_byte_blocks]
  norm_num

theorem bits2arr_encode16 (v : Nat) :
    bits2arr (encodeLSB 16 v) "uint16" = some [v % 2 ^ 16] := by
  rw [show bits2arr (encodeLSB 16 v) "uint16" =
        (np_reshape_pairs (packbits (encodeLSB 16 v).reverse)).map
          (List.map (dotList [2 ^ 8, 1])) from rfl]
  rw [encodeLSB16_bytes, List.reverse_append, encodeLSB8_reverse, encodeLSB8_reverse]
  rw [show byte2bits (v / 256) ++ byte2bits v =
        List.flatten ([v / 256, v].map byte2bits) from by simp]
  rw [packbits_byte_blocks]
  simp only [List.map_cons, List.map_nil, np_reshape_pairs, Option.map_some']
  rw [dotList_cons, dotList_cons, dotList_nil]
  norm_num
  omega

theorem bits2arr_encode32 (v : Nat) :
    bits2arr (encodeLSB 32 v) "uint32" = some [v % 2 ^ 32] := by
  rw [show bits2arr (encodeLSB 32 v) "uint32" =
        (np_reshape_quads (packbits (encodeLSB 32 v).reverse)).map
          (List.map (dotList [2 ^ 24, 2 ^ 16, 2 ^ 8, 1])) from rfl]
  rw [encodeLSB32_bytes]
  simp only [List.reverse_append, encodeLSB8_reverse, List.append_assoc]
  rw [show byte2bits (v / 16777216) ++
        (byte2bits (v / 65536) ++ (byte2bits (v / 256) ++ byte2bits v)) =
        List.flatten ([v / 16777216, v / 65536, v / 256, v].map byte2bits) from by simp]
  rw [packbits_byte_blocks]
  simp only [List.map_cons, List.map_nil, np_reshape_quads, Option.map_some']
  rw [dotList_cons, dotList_cons, dotList_cons, dotList_cons, dotList_nil]
  norm_num
  omega

/-- The dtype string is one of the three supported ones exactly when
`bitwidthOf` succeeds. -/
theorem bitwidthOf_cases (dtype : String) (w : Nat)
    (hw : bitwidthOf dtype = some w) :
    dtype = "uint8" ∧ w = 8 ∨ dtype = "uint16" ∧ w = 16 ∨
      dtype = "uint32" ∧ w = 32 := by
  by_cases h8 : dtype = "uint8"
  · refine Or.inl ⟨h8, ?_⟩
    simp [bitwidthOf, h8] at hw
    omega
  by_cases h16 : dtype = "uint16"
  · refine Or.inr (Or.inl ⟨h16, ?_⟩)
    simp [bitwidthOf, h8, h16] at hw
    omega
  by_cases h32 : dtype = "uint32"
  · refine Or.inr (Or.inr ⟨h32, ?_⟩)
    simp [bitwidthOf, h8, h16, h32] at hw
    omega
  · simp [bitwidthOf, h8, h16, h32] at hw

theorem arr2inbits_single (dtype : String) (w : Nat)
    (hw : bitwidthOf dtype = some w) (v : Nat) :
    arr2inbits dtype [v] = some (encodeLSB w v) := by
  rcases bitwidthOf_cases dtype w hw with ⟨hd, hw'⟩ | ⟨hd, hw'⟩ | ⟨hd, hw'⟩ <;>
    subst hd <;> subst hw'
  · exact arr2inbits_uint8 v
  · exact arr2inbits_uint16 v
  · exact arr2inbits_uint32 v

theorem bits2arr_encode (dtype : String) (w : Nat)
    (hw : bitwidthOf dtype = some w) (v : Nat) :
    bits2arr (encodeLSB w v) dtype = some [v % 2 ^ w] := by
  rcases bitwidthOf_cases dtype w hw with ⟨hd, hw'⟩ | ⟨hd, hw'⟩ | ⟨hd, hw'⟩ <;>
    subst hd <;> subst hw'
  · exact bits2arr_encode8 v
  · exact bits2arr_encode16 v
  · exact bits2arr_encode32 v

/-- C1: for every width w in {8,16,32}, the bit codec is a lossless
bijection between integers in [0, 2^w) and length-w LSB-first bit
vectors: decoding the encoding of any v < 2^w gives back exactly [v],
and encoding the decoded value of any length-w bit vector gives back
exactly that bit vector. -/
theorem codec_lossless_bijection (dtype : String) (w : Nat)
    (hw : bitwidthOf dtype = some w) :
    (∀ v, v < 2 ^ w →
      (arr2inbits dtype [v]).bind (fun b => bits2arr b dtype) = some [v]) ∧
    (∀ b : List Nat, b.length = w → (∀ x ∈ b, x < 2) →
      (bits2arr b dtype).bind (fun xs => arr2inbits dtype xs) = some b) := by
  constructor
  · intro v hv
    rw [arr2inbits_single dtype w hw v, Option.some_bind,
      bits2arr_encode dtype w hw v, Nat.mod_eq_of_lt hv]
  · intro b hlen hbits
    have hb : encodeLSB w (decodeLSB b) = b := by
      have h := encodeLSB_decodeLSB b hbits
      rwa [hlen] at h
    have hlt : decodeLSB b < 2 ^ w := by
      have h := decodeLSB_lt b hbits
      rwa [hlen] at h
    conv_lhs => rw [← hb]
    rw [bits2arr_encode dtype w hw (decodeLSB b), Nat.mod_eq_of_lt hlt,
      Option.some_bind, arr2inbits_single dtype w hw (decodeLSB b), hb]

/-- Witness for the codec round trip: dtype uint8, v = 200, and the
encode direction of the bit vector [1,1,0,0,1,0,0,0]. -/
theorem codec_lossless_bijection_witness :
    (bitwidthOf "uint8" = some 8 ∧ (200 : Nat) < 2 ^ 8 ∧
      (arr2inbits "uint8" [200]).bind (fun b => bits2arr b "uint8") = some [200]) ∧
    (bitwidthOf "uint8" = some 8 ∧
      ([1, 1, 0, 0, 1, 0, 0, 0] : List Nat).length = 8 ∧
      (bits2arr [1, 1, 0, 0, 1, 0, 0, 0] "uint8").bind
        (fun xs => arr2inbits "uint8" xs) = some [1, 1, 0, 0, 1, 0, 0, 0]) :=
  ⟨⟨rfl, by norm_num,
      (codec_lossless_bijection "uint8" 8 rfl).1 200 (by norm_num)⟩,
    rfl, rfl,
    (codec_lossless_bijection "uint8" 8 rfl).2 [1, 1, 0, 0, 1, 0, 0, 0] rfl
      (by decide)⟩

/-- The notebook's own `test_arr2inbits` fixture: `[3, 5]` as `uint32`
unpacks to the 5-vector (LSB first) followed by the 3-vector. -/
theorem test_arr2inbits :
    arr2inbits "uint32" [3, 5] =
      some [1, 0, 1, 0, 0, 0, 0, 0, 0, 0, 0, 0, 0, 0, 0, 0,
            0, 0, 0, 0, 0, 0, 0, 0, 0, 0, 0, 0, 0, 0, 0, 0,
            1, 1, 0, 0, 0, 0, 0, 0, 0, 0, 0, 0, 0, 0, 0, 0,
            0, 0, 0, 0, 0, 0, 0, 0, 0, 0, 0, 0, 0, 0, 0, 0] := by decide

/-- The notebook's own `test_bits2arr` fixture: the same 64-bit vector
packs back to `[3, 5]`, and the 32-bit vector with only bit 8 set packs
to `[256]`. -/
theorem test_bits2arr :
    bits2arr [1, 0, 1, 0, 0, 0, 0, 0, 0, 0, 0, 0, 0, 0, 0, 0,
              0, 0, 0, 0, 0, 0, 0, 0, 0, 0, 0, 0, 0, 0, 0, 0,
              1, 1, 0, 0, 0, 0, 0, 0, 0, 0, 0, 0, 0, 0, 0, 0,
              0, 0, 0, 0, 0, 0, 0, 0, 0, 0, 0, 0, 0, 0, 0, 0] "uint32" =
        some [3, 5] ∧
    bits2arr [0, 0, 0, 0, 0, 0, 0, 0, 1, 0, 0, 0, 0, 0, 0, 0,
              0, 0, 0, 0, 0, 0, 0, 0, 0, 0, 0, 0, 0, 0, 0, 0] "uint32" =
        some [256] := by decide

/-! ## Sample generator theorems -/

theorem np_sum_uint_pair (w a b : Nat) :
    np_sum_uint w [a, b] = (a + b) % 2 ^ w := by
  simp only [np_sum_uint, List.foldl_cons, List.foldl_nil]
  rw [Nat.zero_add, Nat.mod_add_mod]

/-- C2: for every sample pair the generator's y is the modular sum:
`calc_y` maps every row of the stacked operand pair to
`(x0 + x1) mod 2 ^ w` exactly (the accumulation happens in the wrapping
unsigned dtype). -/
theorem calc_y_modular (dtype : String) (w : Nat)
    (hw : bitwidthOf dtype = some w) (x0_uint x1_uint : List Nat) :
    calc_y x0_uint x1_uint dtype =
      some ((x0_uint.zip x1_uint).map (fun p => (p.1 + p.2) % 2 ^ w)) := by
  rw [calc_y, hw, Option.map_some']
  refine congrArg some (List.map_congr_left ?_)
  intro p _
  exact np_sum_uint_pair w p.1 p.2

/-- Witness for the modular-sum claim: width 8, x0 = 200, x1 = 100
gives y = 44 (300 mod 256), the spec's wraparound example. -/
theorem calc_y_modular_witness :
    bitwidthOf "uint8" = some 8 ∧ calc_y [200] [100] "uint8" = some [44] :=
  ⟨rfl, by rw [calc_y_modular "uint8" 8 rfl [200] [100]]; decide⟩

/-- Elements produced by a `np.random.choice(m, ...)` column are below `m`. -/
theorem choice_map_lt (m : Nat) (hm : 0 < m) (d : List Nat) (k : Nat)
    (hk : k ∈ d.map (np_random_choice m)) : k < m := by
  simp only [List.mem_map] at hk
  obtain ⟨x, _, hxe⟩ := hk
  rw [np_random_choice] at hxe
  rw [← hxe]
  exact Nat.mod_lt _ hm

/-- Any value below `m` is a possible `np.random.choice(m, ...)` column. -/
theorem choice_map_hit (m k : Nat) (hk : k < m) :
    (List.map (np_random_choice m) [k]) = [k] := by
  simp [np_random_choice, Nat.mod_eq_of_lt hk]

/-- C5 counterexample: the claim says max_value itself is a possible
draw, but `np.random.choice(max_uint8, ...)` draws from
`range(max_uint8)`, so at width 8 the value 255 = max_value is never
produced by `gen_x`. -/
theorem gen_x_never_draws_max :
    ¬ ∃ (draws0 draws1 : List Nat) (p : List Nat × List Nat),
        gen_x "uint8" draws0 draws1 = some p ∧ 255 ∈ p.1 := by
  rintro ⟨d0, d1, p, hp, hm⟩
  have hg : gen_x "uint8" d0 d1 =
      some (List.map (np_random_choice max_uint8) d0,
        List.map (np_random_choice max_uint8) d1) := rfl
  rw [hg, Option.some.injEq] at hp
  subst hp
  have h := choice_map_lt max_uint8 (by norm_num [max_uint8]) d0 255 hm
  norm_num [max_uint8] at h

/-- C5 amended: every operand element drawn by `gen_x` lies in
[0, max_value - 1] = [0, 2^w - 2]; every value of that interval is a
possible draw, and neither max_value = 2^w - 1 nor anything above it is
ever drawn. -/
theorem gen_x_support (dtype : String) (w : Nat)
    (hw : bitwidthOf dtype = some w) :
    (∀ draws0 draws1 p, gen_x dtype draws0 draws1 = some p →
      ∀ k, k ∈ p.1 ∨ k ∈ p.2 → k < 2 ^ w - 1) ∧
    (∀ k, k < 2 ^ w - 1 → ∃ draws0 draws1 p,
      gen_x dtype draws0 draws1 = some p ∧ k ∈ p.1 ∧ k ∈ p.2) := by
  rcases bitwidthOf_cases dtype w hw with ⟨hd, hw'⟩ | ⟨hd, hw'⟩ | ⟨hd, hw'⟩ <;>
    subst hd <;> subst hw'
  · constructor
    · rintro d0 d1 p hp k hk
      have hg : gen_x "uint8" d0 d1 =
          some (List.map (np_random_choice max_uint8) d0,
            List.map (np_random_choice max_uint8) d1) := rfl
      rw [hg, Option.some.injEq] at hp
      subst hp
      have hb : (2 : Nat) ^ 8 - 1 = max_uint8 := by norm_num [max_uint8]
      rw [hb]
      rcases hk with hk | hk
      · exact choice_map_lt max_uint8 (by norm_num [max_uint8]) d0 k hk
      · exact choice_map_lt max_uint8 (by norm_num [max_uint8]) d1 k hk
    · intro k hk
      have hk8 : k < max_uint8 := by norm_num [max_uint8] at hk ⊢; omega
      refine ⟨[k], [k],
        (List.map (np_random_choice max_uint8) [k],
          List.map (np_random_choice max_uint8) [k]),
        by simp [gen_x], ?_, ?_⟩ <;>
        simp [choice_map_hit max_uint8 k hk8]
  · constructor
    · rintro d0 d1 p hp k hk
      have hg : gen_x "uint16" d0 d1 =
          some (List.map (np_random_choice max_uint16) d0,
            List.map (np_random_choice max_uint16) d1) := rfl
      rw [hg, Option.some.injEq] at hp
      subst hp
      have hb : (2 : Nat) ^ 16 - 1 = max_uint16 := by norm_num [max_uint16]
      rw [hb]
      rcases hk with hk | hk
      · exact choice_map_lt max_uint16 (by norm_num [max_uint16]) d0 k hk
      · exact choice_map_lt max_uint16 (by norm_num [max_uint16]) d1 k hk
    · intro k hk
      have hk16 : k < max_uint16 := by norm_num [max_uint16] at hk ⊢; omega
      refine ⟨[k], [k],
        (List.map (np_random_choice max_uint16) [k],
          List.map (np_random_choice max_uint16) [k]),
        by simp [gen_x], ?_, ?_⟩ <;>
        simp [choice_map_hit max_uint16 k hk16]
  · constructor
    · rintro d0 d1 p hp k hk
      have hg : gen_x "uint32" d0 d1 =
          some (List.map (np_random_choice max_uint32) d0,
            List.map (np_random_choice max_uint32) d1) := rfl
      rw [hg, Option.some.injEq] at hp
      subst hp
      have hb : (2 : Nat) ^ 32 - 1 = max_uint32 := by norm_num [max_uint32]
      rw [hb]
      rcases hk with hk | hk
      · exact choice_map_lt max_uint32 (by norm_num [max_uint32]) d0 k hk
      · exact choice_map_lt max_uint32 (by norm_num [max_uint32]) d1 k hk
    · intro k hk
      have hk32 : k < max_uint32 := by norm_num [max_uint32] at hk ⊢; omega
      refine ⟨[k], [k],
        (List.map (np_random_choice max_uint32) [k],
          List.map (np_random_choice max_uint32) [k]),
        by simp [gen_x], ?_, ?_⟩ <;>
        simp [choice_map_hit max_uint32 k hk32]

/-- Witness for the amended draw-support claim: at width 8 the value
254 = max_value - 1 is a possible draw for both operands. -/
theorem gen_x_support_witness :
    bitwidthOf "uint8" = some 8 ∧ (254 : Nat) < 2 ^ 8 - 1 ∧
      (∃ draws0 draws1 p, gen_x "uint8" draws0 draws1 = some p ∧
        254 ∈ p.1 ∧ 254 ∈ p.2) :=
  ⟨rfl, by norm_num, (gen_x_support "uint8" 8 rfl).2 254 (by norm_num)⟩

/-! ## Train/validation split theorems -/

theorem pyInt_half_sixteen :
    pyInt ((1 / 2 : ℚ) * ((List.range 16).length : ℚ)) = 8 := by
  have hlen : ((List.range 16).length : ℚ) = 16 := by simp
  rw [hlen, show ((1 : ℚ) / 2 * 16) = 8 from by norm_num]
  norm_num [pyInt]

/-- C3 counterexample: with 16 batches and the configured fraction 1/2
(the notebook's own run: samples=256, batch_size=16,
train_validation_batches_split=0.5), `int(0.5 * 16) = 8`, yet the
training split gets only 7 batches, and the batch at index 7 lands in
neither split — so the split is not a partition and the training split
does not hold floor(fraction * N/B) batches. -/
theorem sample_split_counterexample :
    pyInt ((1 / 2 : ℚ) * ((List.range 16).length : ℚ)) = 8 ∧
    (sample_split (1 / 2 : ℚ) (List.range 16)).1.length = 7 ∧
    (7 : ℕ) ∉ (sample_split (1 / 2 : ℚ) (List.range 16)).1 ∧
    (7 : ℕ) ∉ (sample_split (1 / 2 : ℚ) (List.range 16)).2 := by
  have hs : sample_split (1 / 2 : ℚ) (List.range 16) =
      (pySliceTo (8 - 1) (List.range 16), pySliceFrom 8 (List.range 16)) := by
    rw [sample_split, pyInt_half_sixteen]
  refine ⟨pyInt_half_sixteen, ?_, ?_, ?_⟩ <;> rw [hs] <;> decide

/-- C3 amended: when `tb = int(fraction * batch_count)` satisfies
1 ≤ tb ≤ batch_count, the training split holds the first tb - 1 batches
and the validation split the last batch_count - tb batches; the single
batch at index tb - 1 belongs to neither split (`x_all[:tb - 1]` drops
it), so training ++ dropped batch ++ validation recovers the batch
list. -/
theorem sample_split_amended {α : Type} (split : ℚ) (x_all : List α)
    (h1 : 1 ≤ pyInt (split * (x_all.length : ℚ)))
    (h2 : pyInt (split * (x_all.length : ℚ)) ≤ (x_all.length : ℤ)) :
    (sample_split split x_all).1.length =
        (pyInt (split * (x_all.length : ℚ))).toNat - 1 ∧
    (sample_split split x_all).2.length =
        x_all.length - (pyInt (split * (x_all.length : ℚ))).toNat ∧
    (sample_split split x_all).1 ++
        (x_all.drop ((pyInt (split * (x_all.length : ℚ))).toNat - 1)).take 1 ++
        (sample_split split x_all).2 = x_all ∧
    ((x_all.drop ((pyInt (split * (x_all.length : ℚ))).toNat - 1)).take 1).length = 1 := by
  have hto : ((pyInt (split * (x_all.length : ℚ)) - 1).toNat : Nat) =
      (pyInt (split * (x_all.length : ℚ))).toNat - 1 := by omega
  have hsf : (sample_split split x_all).1 =
      x_all.take ((pyInt (split * (x_all.length : ℚ))).toNat - 1) := by
    rw [sample_split, pySliceTo, if_neg (by omega), hto]
  have hss : (sample_split split x_all).2 =
      x_all.drop (pyInt (split * (x_all.length : ℚ))).toNat := by
    rw [sample_split, pySliceFrom, if_neg (by omega)]
  have hlen : (pyInt (split * (x_all.length : ℚ))).toNat ≤ x_all.length := by omega
  have hpos : 1 ≤ (pyInt (split * (x_all.length : ℚ))).toNat := by omega
  refine ⟨?_, ?_, ?_, ?_⟩
  · rw [hsf, List.length_take]
    omega
  · rw [hss, List.length_drop]
  · rw [hsf, hss]
    have hdd : x_all.drop (pyInt (split * (x_all.length : ℚ))).toNat =
        (x_all.drop ((pyInt (split * (x_all.length : ℚ))).toNat - 1)).drop 1 := by
      rw [List.drop_drop]
      congr 1
      omega
    rw [hdd, List.append_assoc, List.take_append_drop 1, List.take_append_drop]
  · rw [List.length_take, List.length_drop]
    omega

/-- Witness for the amended split claim at the notebook's own
configuration: 16 batches, fraction 1/2. -/
theorem sample_split_amended_witness :
    (1 ≤ pyInt ((1 / 2 : ℚ) * ((List.range 16).length : ℚ))) ∧
    (pyInt ((1 / 2 : ℚ) * ((List.range 16).length : ℚ)) ≤ ((List.range 16).length : ℤ)) ∧
    ((sample_split (1 / 2 : ℚ) (List.range 16)).1.length =
        (pyInt ((1 / 2 : ℚ) * ((List.range 16).length : ℚ))).toNat - 1 ∧
      (sample_split (1 / 2 : ℚ) (List.range 16)).2.length =
        (List.range 16).length - (pyInt ((1 / 2 : ℚ) * ((List.range 16).length : ℚ))).toNat ∧
      (sample_split (1 / 2 : ℚ) (List.range 16)).1 ++
        ((List.range 16).drop ((pyInt ((1 / 2 : ℚ) * ((List.range 16).length : ℚ))).toNat - 1)).take 1 ++
        (sample_split (1 / 2 : ℚ) (List.range 16)).2 = List.range 16 ∧
      (((List.range 16).drop ((pyInt ((1 / 2 : ℚ) * ((List.range 16).length : ℚ))).toNat - 1)).take 1).length = 1) :=
  ⟨by rw [pyInt_half_sixteen]; norm_num,
   by rw [pyInt_half_sixteen]; norm_num,
   sample_split_amended (1 / 2 : ℚ) (List.range 16)
     (by rw [pyInt_half_sixteen]; norm_num)
     (by rw [pyInt_half_sixteen]; norm_num)⟩

/-! ## Calculator theorems -/

/-- Evaluation of one calculation at width 32 when the session emits 32
probabilities that all round to zero. -/
theorem rnncalc_calc_uint32_zero_preds (x0 x1 : Nat) :
    rnncalc_calc "uint32" (List.replicate 32 (0 : ℚ)) x0 x1 = some (0, x0 + x1) := by
  have hr : (List.replicate 32 (0 : ℚ)).map npRound = List.replicate 32 0 := by
    rw [List.map_replicate]
    norm_num [npRound]
  have henc : List.replicate 32 (0 : ℕ) = encodeLSB 32 0 := by decide
  have hres : np_reshape_32 (List.replicate 32 (0 : ℕ)) = some (List.replicate 32 0) := by
    rw [np_reshape_32, if_pos (by simp)]
  have hdec : bits2arr (List.replicate 32 (0 : ℕ)) "uint32" = some [0] := by
    rw [henc, bits2arr_encode32]
    norm_num
  simp only [rnncalc_calc, arr2inbits_uint32, Option.some_bind, hr, hres, hdec,
    List.head?_cons]
  rfl

/-- C7 counterexample: at width 32, entering the in-range operands
x0 = x1 = 2^32 - 1 = 4294967295 makes `RNNCalc.run` display
`x0 + x1 = 8589934590` as the "correct answer", which is not the data
model's true sum `(x0 + x1) mod 2^32 = 4294967294`. -/
theorem rnncalc_true_sum_counterexample :
    (rnncalc_calc "uint32" (List.replicate 32 (0 : ℚ)) 4294967295 4294967295).map
        Prod.snd = some 8589934590 ∧
    (8589934590 : Nat) ≠ (4294967295 + 4294967295) % 2 ^ 32 := by
  constructor
  · rw [rnncalc_calc_uint32_zero_preds]
    rfl
  · norm_num

/-- C7 amended: whenever a calculation round completes, the value the
calculator displays as the "correct answer" is the plain integer sum
`x0 + x1` (no modular reduction); it coincides with the data model's
`(x0 + x1) mod 2^width` exactly on inputs whose sum does not wrap. -/
theorem rnncalc_displays_plain_sum (dtype : String) (preds : List ℚ)
    (x0 x1 : Nat) (d : Nat × Nat)
    (hc : rnncalc_calc dtype preds x0 x1 = some d) :
    d.2 = x0 + x1 ∧
    (∀ w, bitwidthOf dtype = some w → x0 + x1 < 2 ^ w →
      d.2 = (x0 + x1) % 2 ^ w) := by
  have h2 : d.2 = x0 + x1 := by
    simp only [rnncalc_calc, Option.pure_def, Option.bind_eq_bind,
      Option.bind_eq_some, Option.some.injEq] at hc
    obtain ⟨b0, h0, b1, h1, pc, hres, dec, hdec, y, hy, hd⟩ := hc
    rw [← hd]
  refine ⟨h2, ?_⟩
  intro w hw hlt
  rw [h2, Nat.mod_eq_of_lt hlt]

/-- Witness for the displayed-sum claim: width 32, x0 = x1 = 1, all
probabilities rounding to zero; the displayed "correct answer" is 2. -/
theorem rnncalc_displays_plain_sum_witness :
    rnncalc_calc "uint32" (List.replicate 32 (0 : ℚ)) 1 1 = some (0, 2) ∧
    ((0, 2) : Nat × Nat).2 = 1 + 1 :=
  ⟨rnncalc_calc_uint32_zero_preds 1 1,
    (rnncalc_displays_plain_sum "uint32" (List.replicate 32 (0 : ℚ)) 1 1 (0, 2)
      (rnncalc_calc_uint32_zero_preds 1 1)).1⟩

/-- C9: `RNNCalc.run` reshapes the rounded prediction list to the fixed
shape `[32]` whatever the dtype; since the model emits one prediction
per bit position, the calculation of a round can complete (without the
numpy reshape raising) exactly when the configured width is 32. -/
theorem reshape_32_width_only (dtype : String) (w : Nat)
    (hw : bitwidthOf dtype = some w) (preds : List ℚ) (hl : preds.length = w)
    (x0 x1 : Nat) :
    (rnncalc_calc dtype preds x0 x1).isSome = true ↔ w = 32 := by
  rcases bitwidthOf_cases dtype w hw with ⟨hd, hw'⟩ | ⟨hd, hw'⟩ | ⟨hd, hw'⟩ <;>
    subst hd <;> subst hw'
  · have hres : np_reshape_32 (preds.map npRound) = none := by
      rw [np_reshape_32, if_neg (by simp [hl])]
    simp only [rnncalc_calc, arr2inbits_uint8, Option.some_bind, hres,
      Option.none_bind]
    simp
  · have hres : np_reshape_32 (preds.map npRound) = none := by
      rw [np_reshape_32, if_neg (by simp [hl])]
    simp only [rnncalc_calc, arr2inbits_uint16, Option.some_bind, hres,
      Option.none_bind]
    simp
  · have hbits : ∀ x ∈ preds.map npRound, x < 2 := by
      intro x hx
      simp only [List.mem_map] at hx
      obtain ⟨q, _, rfl⟩ := hx
      rw [npRound]
      split_ifs <;> norm_num
    have hlen : (preds.map npRound).length = 32 := by simp [hl]
    have henc : encodeLSB 32 (decodeLSB (preds.map npRound)) = preds.map npRound := by
      have h := encodeLSB_decodeLSB _ hbits
      rwa [hlen] at h
    have hres : np_reshape_32 (preds.map npRound) = some (preds.map npRound) := by
      rw [np_reshape_32, if_pos hlen]
    have hdec : bits2arr (preds.map npRound) "uint32" =
        some [decodeLSB (preds.map npRound) % 2 ^ 32] := by
      conv_lhs => rw [← henc]
      exact bits2arr_encode32 _
    simp only [rnncalc_calc, arr2inbits_uint32, Option.some_bind, hres]
    simp [hdec]

/-- Witness for the width-32 reshape claim: at dtype uint32 with 32
emitted predictions the round's calculation completes. -/
theorem reshape_32_width_only_witness :
    bitwidthOf "uint32" = some 32 ∧ (List.replicate 32 (0 : ℚ)).length = 32 ∧
      ((rnncalc_calc "uint32" (List.replicate 32 (0 : ℚ)) 0 0).isSome = true ↔
        (32 : Nat) = 32) :=
  ⟨rfl, by simp,
    reshape_32_width_only "uint32" 32 rfl (List.replicate 32 (0 : ℚ)) (by simp) 0 0⟩

theorem check_input_invalid (max_val : ℤ) (e : Option ℤ)
    (h : entry_invalid max_val e) :
    (_check_input max_val e).1 = none ∧ (_check_input max_val e).2 ≠ [] := by
  rcases h with rfl | ⟨v, rfl, hv⟩
  · simp [_check_input]
  · rcases hv with hv | hv
    · simp [_check_input, hv]
    · by_cases hneg : v < 0
      · simp [_check_input, hneg]
      · simp [_check_input, hneg, hv]

/-- C8: when either operand entry is invalid (not an integer, negative,
or above max_val), the round prints a message, runs no model and shows
no prediction, does not crash, and still reaches the continuation
prompt, whose test decides the loop as usual. -/
theorem invalid_input_abandons_round (dtype : String) (max_val : ℤ)
    (preds : List ℚ) (entry0 entry1 : Option ℤ) (reply : List Char)
    (h : entry_invalid max_val entry0 ∨ entry_invalid max_val entry1) :
    (rnncalc_round dtype max_val preds entry0 entry1 reply).model_ran = false ∧
    (rnncalc_round dtype max_val preds entry0 entry1 reply).display = none ∧
    (rnncalc_round dtype max_val preds entry0 entry1 reply).crashed = false ∧
    (rnncalc_round dtype max_val preds entry0 entry1 reply).messages ≠ [] ∧
    (rnncalc_round dtype max_val preds entry0 entry1 reply).continue_loop =
      strIn reply yY := by
  rcases h with h | h
  · obtain ⟨h1, h2⟩ := check_input_invalid max_val entry0 h
    rcases hr1 : (_check_input max_val entry1).1 with _ | x1 <;>
      simp only [rnncalc_round, h1, hr1] <;>
      refine ⟨by simp, by simp, by simp, ?_, by simp⟩ <;>
      · intro hc
        exact h2 (List.append_eq_nil.mp hc).1
  · obtain ⟨h1, h2⟩ := check_input_invalid max_val entry1 h
    rcases hr0 : (_check_input max_val entry0).1 with _ | x0 <;>
      simp only [rnncalc_round, h1, hr0] <;>
      refine ⟨by simp, by simp, by simp, ?_, by simp⟩ <;>
      · intro hc
        exact h2 (List.append_eq_nil.mp hc).2

/-- Witness for the invalid-input claim: entering -1 at the first
prompt with max_val = 255 abandons the round. -/
theorem invalid_input_abandons_round_witness :
    entry_invalid 255 (some (-1)) ∧
    ((rnncalc_round "uint8" 255 [] (some (-1)) (some 0) []).model_ran = false ∧
      (rnncalc_round "uint8" 255 [] (some (-1)) (some 0) []).display = none ∧
      (rnncalc_round "uint8" 255 [] (some (-1)) (some 0) []).crashed = false ∧
      (rnncalc_round "uint8" 255 [] (some (-1)) (some 0) []).messages ≠ [] ∧
      (rnncalc_round "uint8" 255 [] (some (-1)) (some 0) []).continue_loop =
        strIn [] yY) :=
  ⟨Or.inr ⟨-1, rfl, Or.inl (by norm_num)⟩,
    invalid_input_abandons_round "uint8" 255 [] (some (-1)) (some 0) []
      (Or.inl (Or.inr ⟨-1, rfl, Or.inl (by norm_num)⟩))⟩

/-- C10: the continuation test continues the loop exactly when the
reply is a substring of "Yy" — that is, exactly for the replies "",
"Y", "y" and "Yy"; anything else, "yes" included, terminates the
loop. -/
theorem continuation_substring_test :
    (∀ reply : List Char, strIn reply yY = true ↔
      (reply = [] ∨ reply = ['Y'] ∨ reply = ['y'] ∨ reply = ['Y', 'y'])) ∧
    strIn [] yY = true ∧ strIn ['Y'] yY = true ∧ strIn ['y'] yY = true ∧
    strIn ['Y', 'y'] yY = true ∧ strIn ['y', 'e', 's'] yY = false ∧
    strIn ['n'] yY = false := by
  refine ⟨?_, by decide, by decide, by decide, by decide, by decide, by decide⟩
  intro reply
  rcases reply with _ | ⟨a, _ | ⟨b, _ | ⟨c, rest⟩⟩⟩
  · simp [strIn, yY]
  · simp [strIn, yY, List.isPrefixOf]
  · simp [strIn, yY, List.isPrefixOf]
  · simp [strIn, yY, List.isPrefixOf]

/-! ## The two model realizations (manual unroll vs library cell) -/

theorem tanh_one_lt_one : Real.tanh 1 < 1 := by
  rw [Real.tanh_eq_sinh_div_cosh, div_lt_one (Real.cosh_pos 1)]
  nlinarith [Real.cosh_sub_sinh 1, Real.exp_pos (-1 : ℝ)]

/-- C4 counterexample: even with matched parameters (zero weights,
hidden bias 1, hidden size 1), the hand-rolled step and the library
cell disagree at the zero input and zero initial state: the manual
branch produces relu 1 = 1 while `BasicRNNCell` produces tanh 1 < 1, so
the two realizations do not produce the same per-step outputs. -/
theorem rnn_realizations_differ :
    @rnn_step 1 (fun _ _ => 0) (fun _ _ => 0) (fun _ => 1) (fun _ => 0)
        (fun _ => 0) ≠
      @basic_rnn_cell_step 1 (fun _ _ => 0) (fun _ _ => 0) (fun _ => 1)
        (fun _ => 0) (fun _ => 0) := by
  intro heq
  have h := congrFun heq 0
  simp only [rnn_step, basic_rnn_cell_step, matvec, relu] at h
  rw [Fin.sum_univ_two, Fin.sum_univ_one] at h
  norm_num at h
  linarith [tanh_one_lt_one, h]

/-- C4 amended: the two realizations share the affine per-step
structure (and the output layer literally shares the same weights
`w_h_o`, `b_o` in both branches), but the hand-rolled branch applies
relu where the library cell applies tanh; for matched parameters the
per-step hidden outputs coincide at an input and state exactly when
relu and tanh agree on every pre-activation there — so the two
branches are not functionally interchangeable in general. -/
theorem rnn_realizations_structural {n : Nat} (k_i : Fin 2 → Fin n → ℝ)
    (k_h : Fin n → Fin n → ℝ) (b : Fin n → ℝ) (x : Fin 2 → ℝ)
    (h : Fin n → ℝ) :
    rnn_step k_i k_h b x h = basic_rnn_cell_step k_i k_h b x h ↔
      ∀ j, relu (matvec k_i x j + b j + matvec k_h h j) =
        Real.tanh (matvec k_i x j + b j + matvec k_h h j) := by
  constructor
  · intro he j
    exact congrFun he j
  · intro hj
    funext j
    exact hj j

/-! ## Manual unroll recurrence (C6) -/

theorem rnn_unroll_length {n : Nat} (w_i_h : Fin 2 → Fin n → ℝ)
    (w_h_h : Fin n → Fin n → ℝ) (b_h : Fin n → ℝ)
    (xs : List (Fin 2 → ℝ)) (h_0 : Fin n → ℝ) :
    (rnn_unroll w_i_h w_h_h b_h xs h_0).length = xs.length := by
  induction xs generalizing h_0 with
  | nil => rfl
  | cons x xs ih => simp [rnn_unroll, ih]

theorem rnn_unroll_get {n : Nat} (w_i_h : Fin 2 → Fin n → ℝ)
    (w_h_h : Fin n → Fin n → ℝ) (b_h : Fin n → ℝ)
    (xs : List (Fin 2 → ℝ)) (h_0 : Fin n → ℝ) (t : Nat)
    (ht : t < xs.length)
    (hu : t < (rnn_unroll w_i_h w_h_h b_h xs h_0).length) :
    (rnn_unroll w_i_h w_h_h b_h xs h_0).get ⟨t, hu⟩ =
      rnn_step w_i_h w_h_h b_h (xs.get ⟨t, ht⟩)
        (if h : 0 < t
         then (rnn_unroll w_i_h w_h_h b_h xs h_0).get ⟨t - 1, by omega⟩
         else h_0) := by
  induction xs generalizing h_0 t with
  | nil => simp at ht
  | cons x xs ih =>
      rcases t with _ | t
      · rw [dif_neg (by omega)]
        rfl
      · have ht' : t < xs.length := by
          simpa using ht
        have hu' : t < (rnn_unroll w_i_h w_h_h b_h xs
            (rnn_step w_i_h w_h_h b_h x h_0)).length := by
          rw [rnn_unroll_length]
          exact ht'
        have hmain := ih (rnn_step w_i_h w_h_h b_h x h_0) t ht' hu'
        show (rnn_unroll w_i_h w_h_h b_h xs
            (rnn_step w_i_h w_h_h b_h x h_0)).get ⟨t, hu'⟩ =
          rnn_step w_i_h w_h_h b_h ((x :: xs).get ⟨t + 1, ht⟩)
            (if h : 0 < t + 1
             then (rnn_unroll w_i_h w_h_h b_h (x :: xs) h_0).get ⟨t + 1 - 1, by
                rw [rnn_unroll_length]
                omega⟩
             else h_0)
        rcases t with _ | k
        · rw [hmain, dif_neg (by omega), dif_pos (by omega)]
          rfl
        · rw [hmain, dif_pos (by omega), dif_pos (by omega)]
          rfl

/-- C6: in the hand-rolled realization, for every input sequence and
every timestep t, the hidden state satisfies
h[t] = relu(input[t] · W_ih + b_h + h[t-1] · W_hh) with h[-1] the
externally supplied initial state, the step's logit is
o[t] = h[t] · W_ho + b_o, and the emitted prediction is sigmoid(o[t]). -/
theorem manual_unroll_recurrence {n : Nat} (w_i_h : Fin 2 → Fin n → ℝ)
    (w_h_h : Fin n → Fin n → ℝ) (b_h : Fin n → ℝ)
    (w_h_o : Fin n → Fin 1 → ℝ) (b_o : Fin 1 → ℝ)
    (xs : List (Fin 2 → ℝ)) (h_0 : Fin n → ℝ) (t : Nat)
    (ht : t < xs.length)
    (hu : t < (rnn_unroll w_i_h w_h_h b_h xs h_0).length)
    (hl : t < (logits_series w_i_h w_h_h b_h w_h_o b_o xs h_0).length)
    (hp : t < (predictions_series w_i_h w_h_h b_h w_h_o b_o xs h_0).length) :
    (rnn_unroll w_i_h w_h_h b_h xs h_0).get ⟨t, hu⟩ =
      rnn_step w_i_h w_h_h b_h (xs.get ⟨t, ht⟩)
        (if h : 0 < t
         then (rnn_unroll w_i_h w_h_h b_h xs h_0).get ⟨t - 1, by omega⟩
         else h_0) ∧
    (logits_series w_i_h w_h_h b_h w_h_o b_o xs h_0).get ⟨t, hl⟩ =
      out_logit w_h_o b_o ((rnn_unroll w_i_h w_h_h b_h xs h_0).get ⟨t, hu⟩) ∧
    (predictions_series w_i_h w_h_h b_h w_h_o b_o xs h_0).get ⟨t, hp⟩ =
      sigmoid ((logits_series w_i_h w_h_h b_h w_h_o b_o xs h_0).get ⟨t, hl⟩) := by
  refine ⟨rnn_unroll_get w_i_h w_h_h b_h xs h_0 t ht hu, ?_, ?_⟩
  · show (List.map (out_logit w_h_o b_o)
        (rnn_unroll w_i_h w_h_h b_h xs h_0)).get ⟨t, hl⟩ =
      out_logit w_h_o b_o ((rnn_unroll w_i_h w_h_h b_h xs h_0).get ⟨t, hu⟩)
    exact List.get_map _
  · show (List.map sigmoid
        (logits_series w_i_h w_h_h b_h w_h_o b_o xs h_0)).get ⟨t, hp⟩ =
      sigmoid ((logits_series w_i_h w_h_h b_h w_h_o b_o xs h_0).get ⟨t, hl⟩)
    exact List.get_map _

/-- Witness for the unroll recurrence claim: hidden size 1, all-zero
parameters and input, single timestep t = 0. -/
theorem manual_unroll_recurrence_witness :
    ((0 : Nat) < ([fun _ => 0] : List (Fin 2 → ℝ)).length) ∧
    ((0 : Nat) < (@rnn_unroll 1 (fun _ _ => 0) (fun _ _ => 0) (fun _ => 0)
        [fun _ => 0] (fun _ => 0)).length) ∧
    ((0 : Nat) < (@logits_series 1 (fun _ _ => 0) (fun _ _ => 0) (fun _ => 0)
        (fun _ _ => 0) (fun _ => 0) [fun _ => 0] (fun _ => 0)).length) ∧
    ((0 : Nat) < (@predictions_series 1 (fun _ _ => 0) (fun _ _ => 0)
        (fun _ => 0) (fun _ _ => 0) (fun _ => 0) [fun _ => 0]
        (fun _ => 0)).length) ∧
    (@rnn_unroll 1 (fun _ _ => 0) (fun _ _ => 0) (fun _ => 0)
        [fun _ => 0] (fun _ => 0)).get
        ⟨0, by rw [rnn_unroll_length]; norm_num⟩ =
      rnn_step (fun _ _ => 0) (fun _ _ => 0) (fun _ => 0)
        (([fun _ => 0] : List (Fin 2 → ℝ)).get ⟨0, by norm_num⟩)
        (if h : 0 < 0
         then (@rnn_unroll 1 (fun _ _ => 0) (fun _ _ => 0) (fun _ => 0)
            [fun _ => 0] (fun _ => 0)).get ⟨0 - 1, by
              rw [rnn_unroll_length]; norm_num⟩
         else fun _ => 0) := by
  have h1 : (0 : Nat) < ([fun _ => 0] : List (Fin 2 → ℝ)).length := by norm_num
  have h2 : (0 : Nat) < (@rnn_unroll 1 (fun _ _ => 0) (fun _ _ => 0)
      (fun _ => 0) [fun _ => 0] (fun _ => 0)).length := by
    rw [rnn_unroll_length]
    norm_num
  have h3 : (0 : Nat) < (@logits_series 1 (fun _ _ => 0) (fun _ _ => 0)
      (fun _ => 0) (fun _ _ => 0) (fun _ => 0) [fun _ => 0]
      (fun _ => 0)).length := by
    rw [logits_series, List.length_map, rnn_unroll_length]
    norm_num
  have h4 : (0 : Nat) < (@predictions_series 1 (fun _ _ => 0) (fun _ _ => 0)
      (fun _ => 0) (fun _ _ => 0) (fun _ => 0) [fun _ => 0]
      (fun _ => 0)).length := by
    rw [predictions_series, List.length_map, logits_series, List.length_map,
      rnn_unroll_length]
    norm_num
  exact ⟨h1, h2, h3, h4,
    (manual_unroll_recurrence (fun _ _ => 0) (fun _ _ => 0) (fun _ => 0)
      (fun _ _ => 0) (fun _ => 0) [fun _ => 0] (fun _ => 0) 0
      h1 h2 h3 h4).1⟩
